import Mathlib

/-!
# Verification of the valid8 context-management core

Shallow embedding of `src/context.rs` (`Valid8Context` and its operations:
idempotent add of programs/accounts, dependency resolution, the override
journal, and compose-chain merging), together with theorems settling the
specification claims about it.

Modelling conventions:
* `Pubkey` (a 32-byte key) is modelled as `Nat`; equality of keys is the
  only operation the core performs on them, so any type with decidable
  equality is a faithful image.  The three well-known system identifiers
  (`BPFLoaderUpgradeab1e...`, `Tokenkeg...`, `1111...`) are three fixed
  distinct constants.
* The remote-fetch and persistence collaborators (`helpers::fetch_account`,
  `helpers::clone_program_data`, `helpers::clone_idl`,
  `Valid8Context::try_open_config`) are I/O black boxes outside the core;
  they are modelled as an explicit environment `Env` of functions returning
  `Option` (failure = `none`).  Disc writes (`save_account_to_disc`,
  `try_save_config`) have no observable effect on the in-memory context and
  are modelled as succeeding.
* Fallible Rust functions returning `anyhow::Result` are modelled with
  `Except Err`; the distinct `anyhow!` error sites become constructors of
  `Err`.  A Rust panic (`todo!()`) is a separate outcome, not an error
  result, and is modelled by the dedicated `EditResult.panicked` outcome.
-/

/-- A 32-byte ledger identifier (`solana_sdk::pubkey::Pubkey`), modelled as a
natural number: the core only ever compares identifiers for equality. -/
abbrev Pubkey := Nat

/-- Modelled from the spec: the `Network` enum of the missing `common` module
("a fixed small set of named remote networks"). -/
inductive Network where
  | mainnet
  | devnet
  | testnet
deriving DecidableEq, Repr

/-- Modelled from the spec: the opaque `serde_json::Value` payload carried by
`EditField::Data`; the core never inspects it, so an opaque tag suffices. -/
structure JsonValue where
  tag : Nat
deriving DecidableEq, Repr

/-- Modelled from the spec: the encoded state of a record
("opaque byte sequence with an associated decoding schema").  The
`programData` form is the `UpgradeableLoaderState::ProgramData` schema of the
SDK (a slot and an optional upgrade-authority key); all other byte contents
are collapsed into `bytes`. -/
inductive EncodedState where
  | bytes (bs : List Nat)
  | programData (slot : Nat) (upgradeAuthorityAddress : Option Pubkey)
deriving DecidableEq, Repr

/-- Decoding the upgrade authority out of an encoded state: defined exactly
when the bytes follow the upgrade-authority (`ProgramData`) schema. -/
def decodeUpgradeAuthority : EncodedState → Option (Option Pubkey)
  | .programData _ auth => some auth
  | .bytes _ => none

/-- Modelled from the spec: `AccountSchema` of the missing `common` module —
the Entity Record `{identifier, network, owner, balance, executable,
encoded_state}` (§3 of the spec); field names follow the uses in
`context.rs` (`pubkey`, `network`, `owner`, `lamports`). -/
structure AccountSchema where
  pubkey : Pubkey
  network : Network
  owner : Pubkey
  lamports : Nat
  executable : Bool
  data : EncodedState
deriving DecidableEq, Repr

/-- `EditField` from `context.rs`: the tagged variant of field-level edits. -/
inductive EditField where
  | Owner (key : Pubkey)
  | UpgradeAuthority (key : Pubkey)
  | Lamports (n : Nat)
  | Data (v : JsonValue)
deriving DecidableEq, Repr

/-- `Override` from `context.rs`: a target identifier and an ordered list of
edits. -/
structure Override where
  pubkey : Pubkey
  edit_fields : List EditField
deriving DecidableEq, Repr

/-- `Override::new` from `context.rs`. -/
def Override.new (pubkey : Pubkey) (edit_field : EditField) : Override :=
  { pubkey := pubkey, edit_fields := [edit_field] }

/-- `Valid8Context` from `context.rs`.  The `HashSet<Network>` of networks is
modelled as a duplicate-free-by-insertion list (set semantics). -/
structure Valid8Context where
  project_name : String
  networks : List Network
  programs : List AccountSchema
  accounts : List AccountSchema
  overrides : Option (List Override)
  idls : List String
  compose : Option String
deriving DecidableEq, Repr

/-- Modelled from the spec: `ConfigJson` of the missing `config` module — the
aggregate persisted form (§6): programs/accounts are serialized as a mapping
from identifier to a reference placeholder, modelled as association lists. -/
structure ConfigJson where
  project_name : String
  networks : List Network
  programs : List (Pubkey × String)
  accounts : List (Pubkey × String)
  overrides : Option (List Override)
  idls : List String
  compose : Option String
deriving DecidableEq, Repr

/-- The error taxonomy of the core: one constructor per distinct fallible
site reached by `context.rs` (`anyhow!` values and propagated collaborator
failures). -/
inductive Err where
  | notFound
  | fetchFailed
  | unsupportedEdit
  | composeDepthExceeded (count : Nat)
  | openConfigFailed
deriving DecidableEq, Repr

/-- The environment of external collaborators (§6 of the spec): remote fetch,
program-data clone, IDL (metadata-descriptor) clone, and opening a persisted
sibling config.  `none` (resp. `false` for `clone_idl`) models collaborator
failure. -/
structure Env where
  fetch_account : Network → Pubkey → Option AccountSchema
  clone_program_data : Valid8Context → AccountSchema → Option AccountSchema
  clone_idl : Valid8Context → AccountSchema → Bool
  openConfig : String → Option ConfigJson

/-- `"BPFLoaderUpgradeab1e11111111111111111111111"` as an abstract key. -/
def bpfLoaderUpgradeableId : Pubkey := 1000001

/-- `"TokenkegQfeZyiNwAJbNbGKPFXCWuBvf9Ss623VQ5DA"` as an abstract key. -/
def tokenProgramId : Pubkey := 1000002

/-- `"11111111111111111111111111111111"` as an abstract key. -/
def systemProgramId : Pubkey := 1000003

/-- The fixed allow-list of well-known system-owned identifiers matched by
`add_program_unchecked` in `context.rs` (the three string-literal match
arms). -/
def systemAllowList : List Pubkey :=
  [bpfLoaderUpgradeableId, tokenProgramId, systemProgramId]

/-- `has_account` from `context.rs`: linear scan of the accounts collection
for an exact identifier match. -/
def Valid8Context.has_account (ctx : Valid8Context) (pubkey : Pubkey) : Bool :=
  ctx.accounts.any (fun acc => acc.pubkey == pubkey)

/-- `has_program` from `context.rs`: linear scan of the programs collection
for an exact identifier match. -/
def Valid8Context.has_program (ctx : Valid8Context) (program_id : Pubkey) : Bool :=
  ctx.programs.any (fun acc => acc.pubkey == program_id)

/-- The outcome of an `add_program` / `add_account` call: the updated
context, the number of remote collaborator calls performed
(`fetch_account`, `clone_program_data`, `clone_idl`), and the notices
printed (`println!`). -/
structure AddOut where
  ctx : Valid8Context
  fetches : Nat
  notices : List String
deriving DecidableEq, Repr

/-- `add_idl` from `context.rs`: appends the program id (as a string) to the
context's IDL (metadata-descriptor) list. -/
def Valid8Context.add_idl (ctx : Valid8Context) (program_id : Pubkey) : Valid8Context :=
  { ctx with idls := ctx.idls ++ [toString program_id] }

/-- `add_program_unchecked` from `context.rs`: fetch the program record
(fetch failure is fatal), match the identifier against the system
allow-list (matched: no store change), otherwise push the program record,
clone and push its program-data record (failure fatal), best-effort clone
the IDL (failure silently skipped), then save the config. -/
def add_program_unchecked (env : Env) (network : Network) (program_id : Pubkey)
    (ctx : Valid8Context) : Except Err AddOut :=
  match env.fetch_account network program_id with
  | none => .error .fetchFailed
  | some program_account =>
    if program_id ∈ systemAllowList then
      .ok ⟨ctx, 1, []⟩
    else
      let ctx1 : Valid8Context := { ctx with programs := ctx.programs ++ [program_account] }
      match env.clone_program_data ctx1 program_account with
      | none => .error .fetchFailed
      | some program_data_account =>
        let ctx2 : Valid8Context :=
          { ctx1 with accounts := ctx1.accounts ++ [program_data_account] }
        if env.clone_idl ctx2 program_account then
          .ok ⟨ctx2.add_idl program_id, 3, []⟩
        else
          .ok ⟨ctx2, 3, []⟩

/-- `add_program` from `context.rs`: no-op with a printed notice when the
program is already present, otherwise delegate to `add_program_unchecked`. -/
def add_program (env : Env) (network : Network) (program_id : Pubkey)
    (ctx : Valid8Context) : Except Err AddOut :=
  if ctx.has_program program_id then
    .ok ⟨ctx, 0, [toString program_id ++ " already added"]⟩
  else
    add_program_unchecked env network program_id ctx

/-- Insertion into the `HashSet<Network>` of the context: set semantics on
the list model (skip when already present). -/
def insertNetwork (networks : List Network) (n : Network) : List Network :=
  if n ∈ networks then networks else networks ++ [n]

/-- `add_account_unchecked` from `context.rs`: fetch the account (failure
fatal), push it to accounts and record its network, then — if the owner
program is unknown — resolve the owner through `add_program_unchecked`. -/
def add_account_unchecked (env : Env) (network : Network) (pubkey : Pubkey)
    (ctx : Valid8Context) : Except Err AddOut :=
  match env.fetch_account network pubkey with
  | none => .error .fetchFailed
  | some account =>
    let ctx1 : Valid8Context :=
      { ctx with accounts := ctx.accounts ++ [account],
                 networks := insertNetwork ctx.networks network }
    if ctx1.has_program account.owner then
      .ok ⟨ctx1, 1, []⟩
    else
      match add_program_unchecked env network account.owner ctx1 with
      | .error e => .error e
      | .ok out => .ok ⟨out.ctx, out.fetches + 1, out.notices⟩

/-- `add_account` from `context.rs`: no-op with a printed notice when the
account is already present, otherwise delegate to `add_account_unchecked`. -/
def add_account (env : Env) (network : Network) (pubkey : Pubkey)
    (ctx : Valid8Context) : Except Err AddOut :=
  if ctx.has_account pubkey then
    .ok ⟨ctx, 0, [toString pubkey ++ " already added"]⟩
  else
    add_account_unchecked env network pubkey ctx

/-- Remove-and-return the first element of a list satisfying a predicate —
the `iter().position(p)` + `remove(position)` pattern of `get_account`. -/
def takeFirst (p : α → Bool) : List α → Option (α × List α)
  | [] => none
  | x :: xs =>
    if p x then some (x, xs)
    else
      match takeFirst p xs with
      | none => none
      | some (a, ys) => some (a, x :: ys)

/-- `get_account` from `context.rs`: removes and returns the record with the
given identifier from the *accounts* collection; errors (`"No account found
in context; Edit"` = `NotFound`) when absent. -/
def get_account (ctx : Valid8Context) (pubkey : Pubkey) :
    Except Err (AccountSchema × Valid8Context) :=
  match takeFirst (fun acc => acc.pubkey == pubkey) ctx.accounts with
  | none => .error .notFound
  | some (account, rest) => .ok (account, { ctx with accounts := rest })

/-- `add_override` from `context.rs`: append to the override journal,
creating the journal when none exists yet. -/
def Valid8Context.add_override (ctx : Valid8Context) (over : Override) : Valid8Context :=
  match ctx.overrides with
  | some override_list => { ctx with overrides := some (override_list ++ [over]) }
  | none => { ctx with overrides := some [over] }

/-- The outcome of an `edit_account` / `edit_program` call on a `&mut self`
receiver: success with the updated context, an error *together with* the
context as already mutated when the error was raised (Rust's `&mut self`
keeps partial mutations on early `return Err`), or a panic (`todo!()`),
which aborts the process and is not an error result. -/
inductive EditResult where
  | ok (ctx : Valid8Context)
  | err (e : Err) (ctx : Valid8Context)
  | panicked
deriving DecidableEq, Repr

/-- Whether an `EditResult` is an error *result* (a `Result::Err` returned to
the caller) — a panic is not. -/
def EditResult.isErrResult : EditResult → Bool
  | .err _ _ => true
  | _ => false

/-- The common tail of both edit paths in `context.rs`: save the record to
disc (modelled as succeeding), push it back into the accounts collection,
append a journal entry for the applied edit, save the config (modelled as
succeeding). -/
def reinsertAndRecord (ctx : Valid8Context) (account : AccountSchema)
    (pubkey : Pubkey) (edit_field : EditField) : Valid8Context :=
  ({ ctx with accounts := ctx.accounts ++ [account] }).add_override
    (Override.new pubkey edit_field)

/-- `edit_account` from `context.rs`: move the record out of the accounts
collection (`get_account`), apply the edit (`Lamports`/`Owner` are direct
field replacement; `UpgradeAuthority` is an error — the early `return Err`
leaves the record removed; `Data` is `todo!()`, a panic), then reinsert and
journal. -/
def edit_account (ctx : Valid8Context) (pubkey : Pubkey) (edit_field : EditField) :
    EditResult :=
  match get_account ctx pubkey with
  | .error e => .err e ctx
  | .ok (account, ctx1) =>
    match edit_field with
    | .Lamports new_lamports =>
      .ok (reinsertAndRecord ctx1 { account with lamports := new_lamports } pubkey edit_field)
    | .Owner new_owner =>
      .ok (reinsertAndRecord ctx1 { account with owner := new_owner } pubkey edit_field)
    | .UpgradeAuthority _ => .err .unsupportedEdit ctx1
    | .Data _ => .panicked

/-- `edit_program` from `context.rs`: move the program-data record out of the
*accounts* collection (`get_account`), apply the edit
(`Lamports`/`Owner` direct replacement; `UpgradeAuthority` re-derives the
encoded state as `UpgradeableLoaderState::ProgramData { slot: 0,
upgrade_authority_address: Some(new) }` and re-encodes it, keeping every
other field — the `to_account`/`set_state`/`from_account` round-trip of the
SDK, modelled from the spec as a total re-encoding since the SDK is an
external collaborator; `Data` is an empty match arm, a no-op), then reinsert
and journal. -/
def edit_program (ctx : Valid8Context) (pubkey : Pubkey) (edit_field : EditField) :
    EditResult :=
  match get_account ctx pubkey with
  | .error e => .err e ctx
  | .ok (program_data_account, ctx1) =>
    match edit_field with
    | .Lamports new_lamports =>
      .ok (reinsertAndRecord ctx1 { program_data_account with lamports := new_lamports }
            pubkey edit_field)
    | .Owner new_owner =>
      .ok (reinsertAndRecord ctx1 { program_data_account with owner := new_owner }
            pubkey edit_field)
    | .UpgradeAuthority new_upgrade_auth =>
      .ok (reinsertAndRecord ctx1
            { program_data_account with
              data := .programData 0 (some new_upgrade_auth) }
            pubkey edit_field)
    | .Data _ =>
      .ok (reinsertAndRecord ctx1 program_data_account pubkey edit_field)

/-- `apply_overrides` from `context.rs`, as written: the body builds
`override_list.iter().map(|over| ...)` and binds it to `_` without ever
consuming it.  Rust iterators are lazy, so the closure never runs (the
compiler warns `unused Map that must be used`): the function mutates
nothing and returns `Ok(())` whether or not a journal exists. -/
def apply_overrides (ctx : Valid8Context) : Except Err Valid8Context :=
  match ctx.overrides with
  | some _ => .ok ctx
  | none => .ok ctx

/-- Applying one override entry's edit list in order, threading the context,
with the short-circuit of `collect::<Result<Vec<()>>>()`: stop this entry at
the first error (keeping the mutations made so far), propagate a panic. -/
def applyEditList (f : Valid8Context → EditField → EditResult)
    (ctx : Valid8Context) : List EditField → EditResult
  | [] => .ok ctx
  | e :: es =>
    match f ctx e with
    | .ok ctx1 => applyEditList f ctx1 es
    | .err err1 ctx1 => .err err1 ctx1
    | .panicked => .panicked

/-- Modelled from the spec: the loop body `apply_overrides` was meant to run
(the spec's `apply_all()`): for each journal entry in order, locate the
target in accounts first, then in programs, apply its edits in list order
(an entry whose edit list errors keeps its partial mutations and the loop
continues, matching the discarded inner `collect::<Result<_>>`), and log
and skip an entry found in neither collection. -/
def apply_overrides_intended_go (ctx : Valid8Context) : List Override → EditResult
  | [] => .ok ctx
  | over :: rest =>
    if ctx.accounts.any (fun acc => acc.pubkey == over.pubkey) then
      match applyEditList (fun c e => edit_account c over.pubkey e) ctx over.edit_fields with
      | .ok ctx1 => apply_overrides_intended_go ctx1 rest
      | .err _ ctx1 => apply_overrides_intended_go ctx1 rest
      | .panicked => .panicked
    else if ctx.programs.any (fun acc => acc.pubkey == over.pubkey) then
      match applyEditList (fun c e => edit_program c over.pubkey e) ctx over.edit_fields with
      | .ok ctx1 => apply_overrides_intended_go ctx1 rest
      | .err _ ctx1 => apply_overrides_intended_go ctx1 rest
      | .panicked => .panicked
    else
      apply_overrides_intended_go ctx rest

/-- Modelled from the spec: `apply_all()` as specified — iterate a clone of
the journal and process every entry (what `apply_overrides` would do if its
outer iterator were consumed). -/
def apply_overrides_intended (ctx : Valid8Context) : EditResult :=
  match ctx.overrides with
  | some override_list => apply_overrides_intended_go ctx override_list
  | none => .ok ctx

/-- List-append with equality-based de-duplication: fold the second list into
the first, skipping elements already present — the
`if !this.contains(x) { this.push(x) }` merge loops of `try_compose`. -/
def dedupAppend [DecidableEq α] (acc : List α) (l : List α) : List α :=
  l.foldl (fun acc2 x => if x ∈ acc2 then acc2 else acc2 ++ [x]) acc

/-- One merge step of `try_compose` in `context.rs`: fold a parent config
into the accumulator — accounts, programs and IDL ids by equality-deduped
append; networks by set union; overrides by deduped append, but only when
the accumulator already has an overrides list. -/
def mergeConfig (this_ctx new_ctx : ConfigJson) : ConfigJson :=
  { this_ctx with
    accounts := dedupAppend this_ctx.accounts new_ctx.accounts,
    programs := dedupAppend this_ctx.programs new_ctx.programs,
    idls := dedupAppend this_ctx.idls new_ctx.idls,
    networks := dedupAppend this_ctx.networks new_ctx.networks,
    overrides :=
      match new_ctx.overrides, this_ctx.overrides with
      | some new_overrides, some overrides => some (dedupAppend overrides new_overrides)
      | _, t => t }

/-- Modelled from the spec: `ProjectName::from_str(&name.replace(".json",
""))` of the missing `common` module — normalizing a compose reference to a
project name by removing a trailing `".json"`. -/
def stripJson (s : String) : String :=
  match s.data.reverse with
  | 'n' :: 'o' :: 's' :: 'j' :: '.' :: rest => String.mk rest.reverse
  | _ => s

/-- The `while let Some(new_config) = new_config_path` loop of `try_compose`:
increment the counter, fail with `ComposeDepthExceeded` past 20, open the
parent config (failure fatal), merge it, follow its own `compose` reference.
`fuel` is an upper bound on the remaining iterations making the recursion
structural; `try_compose` passes 21, so the `fuel = 0` arm (reachable only
once `count ≥ fuel` initially) never fires there — the loop is bounded by
the counter alone. -/
def composeLoop (env : Env) (fuel : Nat) (this_ctx : ConfigJson) (count : Nat) :
    Option String → Except Err (ConfigJson × Nat)
  | none => .ok (this_ctx, count)
  | some new_config =>
    if count + 1 > 20 then .error (.composeDepthExceeded (count + 1))
    else
      match fuel with
      | 0 => .error (.composeDepthExceeded (count + 1))
      | fuel1 + 1 =>
        match env.openConfig (stripJson new_config) with
        | none => .error .openConfigFailed
        | some new_ctx =>
          composeLoop env fuel1 (mergeConfig this_ctx new_ctx) (count + 1) new_ctx.compose

/-- Modelled from the spec: `ConfigJson::from(Valid8Context)` of the missing
`config` module — programs/accounts serialize as a mapping from identifier
to a reference placeholder. -/
def toConfigJson (ctx : Valid8Context) : ConfigJson :=
  { project_name := ctx.project_name,
    networks := ctx.networks,
    programs := ctx.programs.map (fun a => (a.pubkey, "placeholder")),
    accounts := ctx.accounts.map (fun a => (a.pubkey, "placeholder")),
    overrides := ctx.overrides,
    idls := ctx.idls,
    compose := ctx.compose }

/-- `try_compose` from `context.rs`: convert the current context to its
config form, run the merge loop from count 0 starting at `self.compose`,
and (on success) convert back and save — conversion and save are modelled
as succeeding, and the merged config is returned together with the final
`compose_count` so that the written-back state is observable. -/
def try_compose (env : Env) (ctx : Valid8Context) : Except Err (ConfigJson × Nat) :=
  composeLoop env 21 (toConfigJson ctx) 0 ctx.compose

/-! ## Helper lemmas -/

theorem takeFirst_nil (p : α → Bool) : takeFirst p [] = none := rfl

theorem takeFirst_of_any_eq_false (p : α → Bool) (l : List α) (h : l.any p = false) :
    takeFirst p l = none := by
  induction l with
  | nil => rfl
  | cons x xs ih =>
    simp only [List.any_cons, Bool.or_eq_false_iff] at h
    simp only [takeFirst, h.1, ih h.2]
    rfl

theorem takeFirst_pred (p : α → Bool) (l : List α) (a : α) (rest : List α)
    (h : takeFirst p l = some (a, rest)) : p a = true := by
  induction l generalizing rest with
  | nil => simp [takeFirst] at h
  | cons x xs ih =>
    simp only [takeFirst] at h
    by_cases hx : p x
    · rw [if_pos hx] at h
      simp only [Option.some.injEq, Prod.mk.injEq] at h
      exact h.1 ▸ hx
    · rw [if_neg hx] at h
      match hrec : takeFirst p xs with
      | none => rw [hrec] at h; exact absurd h (by simp)
      | some (b, ys) =>
        rw [hrec] at h
        simp only [Option.some.injEq, Prod.mk.injEq] at h
        obtain ⟨hb, -⟩ := h
        subst hb
        exact ih ys hrec

theorem get_account_of_not_has (ctx : Valid8Context) (pk : Pubkey)
    (h : ctx.has_account pk = false) : get_account ctx pk = .error .notFound := by
  unfold get_account
  rw [takeFirst_of_any_eq_false _ _ h]

theorem add_override_accounts (ctx : Valid8Context) (over : Override) :
    (ctx.add_override over).accounts = ctx.accounts := by
  unfold Valid8Context.add_override
  cases ctx.overrides <;> rfl

theorem dedupAppend_nil [DecidableEq α] (acc : List α) : dedupAppend acc [] = acc := rfl

theorem dedupAppend_cons [DecidableEq α] (acc : List α) (x : α) (xs : List α) :
    dedupAppend acc (x :: xs) = dedupAppend (if x ∈ acc then acc else acc ++ [x]) xs := rfl

theorem mem_dedupAppend [DecidableEq α] (acc l : List α) (a : α) :
    a ∈ dedupAppend acc l ↔ a ∈ acc ∨ a ∈ l := by
  induction l generalizing acc with
  | nil => simp [dedupAppend_nil]
  | cons x xs ih =>
    rw [dedupAppend_cons, ih]
    by_cases hx : x ∈ acc
    · rw [if_pos hx]
      simp only [List.mem_cons]
      constructor
      · rintro (h | h)
        · exact Or.inl h
        · exact Or.inr (Or.inr h)
      · rintro (h | h | h)
        · exact Or.inl h
        · exact Or.inl (h ▸ hx)
        · exact Or.inr h
    · rw [if_neg hx]
      simp only [List.mem_append, List.mem_singleton, List.mem_cons]
      tauto

/-- Occurrence count by propositional equality, used to state
de-duplication without fixing a `BEq` instance. -/
def occCount [DecidableEq α] (a : α) (l : List α) : Nat :=
  (l.filter (fun x => x = a)).length

theorem occCount_append [DecidableEq α] (a : α) (l1 l2 : List α) :
    occCount a (l1 ++ l2) = occCount a l1 + occCount a l2 := by
  simp [occCount, List.filter_append]

theorem count_dedupAppend_of_mem [DecidableEq α] (acc l : List α) (a : α) (ha : a ∈ acc) :
    occCount a (dedupAppend acc l) = occCount a acc := by
  induction l generalizing acc with
  | nil => rfl
  | cons x xs ih =>
    rw [dedupAppend_cons]
    by_cases hx : x ∈ acc
    · rw [if_pos hx, ih _ ha]
    · rw [if_neg hx, ih _ (List.mem_append_left _ ha), occCount_append]
      have hne : x ≠ a := fun h => hx (h ▸ ha)
      simp [occCount, hne]

theorem nodup_dedupAppend [DecidableEq α] (acc l : List α) (h : acc.Nodup) :
    (dedupAppend acc l).Nodup := by
  induction l generalizing acc with
  | nil => exact h
  | cons x xs ih =>
    rw [dedupAppend_cons]
    by_cases hx : x ∈ acc
    · rw [if_pos hx]; exact ih _ h
    · rw [if_neg hx]
      refine ih _ ?_
      simp [List.nodup_append, h, hx]

/-! ## Concrete fixtures used by witnesses and counterexamples -/

/-- An environment in which every collaborator fails: adequate for paths
that never reach a collaborator. -/
def emptyEnv : Env :=
  { fetch_account := fun _ _ => none,
    clone_program_data := fun _ _ => none,
    clone_idl := fun _ _ => false,
    openConfig := fun _ => none }

/-- The empty context of a fresh project (`Valid8Context::default()`). -/
def emptyCtx : Valid8Context :=
  { project_name := "demo", networks := [], programs := [], accounts := [],
    overrides := none, idls := [], compose := none }

/-- A plain (non-executable) account record. -/
def acctA : AccountSchema :=
  { pubkey := 7, network := .devnet, owner := 42, lamports := 10,
    executable := false, data := .bytes [0, 1] }

/-- A context holding only `acctA`. -/
def ctxWithA : Valid8Context := { emptyCtx with accounts := [acctA] }

/-- An executable-resource record outside the system allow-list. -/
def progE : AccountSchema :=
  { pubkey := 100, network := .devnet, owner := bpfLoaderUpgradeableId,
    lamports := 1, executable := true, data := .bytes [7] }

/-- The program-data record associated with `progE`. -/
def progEData : AccountSchema :=
  { pubkey := 101, network := .devnet, owner := 100, lamports := 2,
    executable := false, data := .programData 5 (some 900) }

/-- An environment whose remote side serves `progE` (and a dummy record for
any other identifier) and clones `progEData` for it; IDL lookup fails. -/
def fetchEnv : Env :=
  { fetch_account := fun _ pk => if pk = 100 then some progE else some acctA,
    clone_program_data := fun _ pa => if pa.pubkey = 100 then some progEData else none,
    clone_idl := fun _ _ => false,
    openConfig := fun _ => none }

/-! ## C2 — idempotent add -/

/-- C2: adding is idempotent — for an identifier already present in the
corresponding collection, `add_program` / `add_account` leaves the context
unchanged, performs zero collaborator fetches, and returns success with a
printed notice. -/
theorem add_idempotent_on_present :
    (∀ (env : Env) (nw : Network) (pk : Pubkey) (ctx : Valid8Context),
        ctx.has_program pk = true →
        add_program env nw pk ctx = .ok ⟨ctx, 0, [toString pk ++ " already added"]⟩)
    ∧ (∀ (env : Env) (nw : Network) (pk : Pubkey) (ctx : Valid8Context),
        ctx.has_account pk = true →
        add_account env nw pk ctx = .ok ⟨ctx, 0, [toString pk ++ " already added"]⟩) := by
  constructor
  · intro env nw pk ctx h
    unfold add_program
    rw [h]
    rfl
  · intro env nw pk ctx h
    unfold add_account
    rw [h]
    rfl

/-- Witness for C2 at a concrete context holding account 7 and program 100. -/
theorem add_idempotent_on_present_witness :
    ({ emptyCtx with programs := [progE] } : Valid8Context).has_program 100 = true
    ∧ add_program emptyEnv .devnet 100 { emptyCtx with programs := [progE] } =
        .ok ⟨{ emptyCtx with programs := [progE] }, 0, [toString (100 : Pubkey) ++ " already added"]⟩
    ∧ ctxWithA.has_account 7 = true
    ∧ add_account emptyEnv .devnet 7 ctxWithA =
        .ok ⟨ctxWithA, 0, [toString (7 : Pubkey) ++ " already added"]⟩ :=
  ⟨by decide, add_idempotent_on_present.1 emptyEnv .devnet 100 _ (by decide),
   by decide, add_idempotent_on_present.2 emptyEnv .devnet 7 _ (by decide)⟩

/-! ## C3 — dependency closure of a single add -/

/-- C3: a successful `add_program` of an executable identifier `E` outside
the system allow-list appends exactly one programs entry (the fetched record
for `E`) and exactly one accounts entry (its cloned program-data record);
for an identifier in the allow-list nothing is appended to either
collection. -/
theorem add_program_dependency_closure :
    (∀ (env : Env) (nw : Network) (E : Pubkey) (ctx : Valid8Context)
        (rec pda : AccountSchema),
        ctx.has_program E = false →
        E ∉ systemAllowList →
        env.fetch_account nw E = some rec →
        env.clone_program_data { ctx with programs := ctx.programs ++ [rec] } rec = some pda →
        ∃ out : AddOut, add_program env nw E ctx = .ok out ∧
          out.ctx.programs = ctx.programs ++ [rec] ∧
          out.ctx.accounts = ctx.accounts ++ [pda])
    ∧ (∀ (env : Env) (nw : Network) (E : Pubkey) (ctx : Valid8Context)
        (rec : AccountSchema),
        ctx.has_program E = false →
        E ∈ systemAllowList →
        env.fetch_account nw E = some rec →
        add_program env nw E ctx = .ok ⟨ctx, 1, []⟩) := by
  constructor
  · intro env nw E ctx rec pda hnot hallow hfetch hclone
    unfold add_program
    rw [hnot]
    simp only [Bool.false_eq_true, if_false]
    simp only [add_program_unchecked, hfetch, if_neg hallow, hclone]
    by_cases hidl : env.clone_idl
        { { ctx with programs := ctx.programs ++ [rec] } with
          accounts := ctx.accounts ++ [pda] } rec
    · rw [if_pos hidl]
      exact ⟨_, rfl, rfl, rfl⟩
    · rw [if_neg hidl]
      exact ⟨_, rfl, rfl, rfl⟩
  · intro env nw E ctx rec hnot hallow hfetch
    unfold add_program
    rw [hnot]
    simp only [Bool.false_eq_true, if_false]
    simp only [add_program_unchecked, hfetch, if_pos hallow]

/-- Witness for C3: adding program 100 to the empty context appends `progE`
to programs and `progEData` to accounts; adding the native loader id appends
nothing. -/
theorem add_program_dependency_closure_witness :
    (∃ out : AddOut, add_program fetchEnv .devnet 100 emptyCtx = .ok out ∧
        out.ctx.programs = emptyCtx.programs ++ [progE] ∧
        out.ctx.accounts = emptyCtx.accounts ++ [progEData])
    ∧ add_program fetchEnv .devnet bpfLoaderUpgradeableId emptyCtx =
        .ok ⟨emptyCtx, 1, []⟩ :=
  ⟨add_program_dependency_closure.1 fetchEnv .devnet 100 emptyCtx progE progEData
      (by decide) (by decide) (by decide) (by decide),
   add_program_dependency_closure.2 fetchEnv .devnet bpfLoaderUpgradeableId emptyCtx acctA
      (by decide) (by decide) (by decide)⟩

/-! ## C10 — program-targeted edits resolve through the accounts collection -/

/-- C10: for an identifier present in the programs collection but not in the
accounts collection, `edit_program` fails with `NotFound` before applying
any edit (the context is returned unchanged), because `get_account` searches
only the accounts collection. -/
theorem edit_program_requires_accounts_entry :
    ∀ (ctx : Valid8Context) (pk : Pubkey) (e : EditField),
      ctx.has_program pk = true →
      ctx.has_account pk = false →
      edit_program ctx pk e = .err .notFound ctx := by
  intro ctx pk e _ hacc
  unfold edit_program
  rw [get_account_of_not_has ctx pk hacc]

/-- Witness for C10: a context holding `progE` as a program with no matching
accounts entry rejects every edit of identifier 100 with `NotFound`. -/
theorem edit_program_requires_accounts_entry_witness :
    ({ emptyCtx with programs := [progE] } : Valid8Context).has_program 100 = true
    ∧ ({ emptyCtx with programs := [progE] } : Valid8Context).has_account 100 = false
    ∧ edit_program { emptyCtx with programs := [progE] } 100 (.Lamports 5) =
        .err .notFound { emptyCtx with programs := [progE] } :=
  ⟨by decide, by decide,
   edit_program_requires_accounts_entry _ 100 (.Lamports 5) (by decide) (by decide)⟩

/-! ## C7 — move-edit-reinsert round trip -/

/-- The edits valid for a plain account record: direct replacement of its
balance or its owner. -/
def validAccountEdit (e : EditField) : Prop :=
  (∃ n, e = .Lamports n) ∨ (∃ k, e = .Owner k)

/-- `R2` is `R` with exactly the given edit applied: the edited field equals
the edit's value and every other field is unchanged. -/
def editApplied (e : EditField) (R R2 : AccountSchema) : Prop :=
  match e with
  | .Lamports n => R2 = { R with lamports := n }
  | .Owner k => R2 = { R with owner := k }
  | _ => False

/-- C7: for a record `R` in the accounts collection and an edit valid for
its kind, `edit_account` (move out via `get_account`, apply, reinsert)
succeeds, yields a store where `has_account R.pubkey` holds, and the
reinserted record differs from `R` in exactly the edited field; and
`get_account` errors with `NotFound` when the identifier is absent. -/
theorem move_edit_reinsert_round_trip :
    (∀ (ctx : Valid8Context) (pk : Pubkey) (R : AccountSchema) (rest : List AccountSchema)
        (e : EditField),
        takeFirst (fun acc => acc.pubkey == pk) ctx.accounts = some (R, rest) →
        validAccountEdit e →
        ∃ ctx2 R2, edit_account ctx pk e = .ok ctx2 ∧
          ctx2.accounts = rest ++ [R2] ∧
          editApplied e R R2 ∧
          ctx2.has_account pk = true)
    ∧ (∀ (ctx : Valid8Context) (pk : Pubkey),
        ctx.has_account pk = false → get_account ctx pk = .error .notFound) := by
  constructor
  · intro ctx pk R rest e htake hvalid
    have hpk : (R.pubkey == pk) = true :=
      takeFirst_pred (fun acc => acc.pubkey == pk) ctx.accounts R rest htake
    rcases hvalid with ⟨n, rfl⟩ | ⟨k, rfl⟩
    · refine ⟨reinsertAndRecord { ctx with accounts := rest } { R with lamports := n }
          pk (.Lamports n), { R with lamports := n }, ?_, ?_, rfl, ?_⟩
      · simp only [edit_account, get_account, htake]
      · simp only [reinsertAndRecord, add_override_accounts]
      · simp only [Valid8Context.has_account, reinsertAndRecord, add_override_accounts,
          List.any_append, List.any_cons, List.any_nil, Bool.or_false, hpk,
          Bool.or_true]
    · refine ⟨reinsertAndRecord { ctx with accounts := rest } { R with owner := k }
          pk (.Owner k), { R with owner := k }, ?_, ?_, rfl, ?_⟩
      · simp only [edit_account, get_account, htake]
      · simp only [reinsertAndRecord, add_override_accounts]
      · simp only [Valid8Context.has_account, reinsertAndRecord, add_override_accounts,
          List.any_append, List.any_cons, List.any_nil, Bool.or_false, hpk,
          Bool.or_true]
  · exact get_account_of_not_has

/-- Witness for C7: editing the balance of account 7 in `ctxWithA` to 99
reinserts the record with the new balance and all other fields intact. -/
theorem move_edit_reinsert_round_trip_witness :
    takeFirst (fun acc => acc.pubkey == 7) ctxWithA.accounts = some (acctA, [])
    ∧ validAccountEdit (.Lamports 99)
    ∧ (∃ ctx2 R2, edit_account ctxWithA 7 (.Lamports 99) = .ok ctx2 ∧
        ctx2.accounts = [] ++ [R2] ∧
        editApplied (.Lamports 99) acctA R2 ∧
        ctx2.has_account 7 = true) :=
  ⟨by decide, Or.inl ⟨99, rfl⟩,
   move_edit_reinsert_round_trip.1 ctxWithA 7 acctA [] (.Lamports 99)
     (by decide) (Or.inl ⟨99, rfl⟩)⟩

/-! ## C8 — SetUpgradeAuthority is kind-checked at apply time -/

/-- C8: `UpgradeAuthority` applied through the account path fails with the
`UnsupportedEdit` error (it is never a silent no-op), while applied through
the executable-metadata path it re-derives the encoded state so that the
upgrade authority decodes to `some new_key`, replacing `encoded_state` and
keeping every other field of the record. -/
theorem upgrade_authority_kind_checked :
    (∀ (ctx : Valid8Context) (pk new_key : Pubkey) (R : AccountSchema)
        (rest : List AccountSchema),
        takeFirst (fun acc => acc.pubkey == pk) ctx.accounts = some (R, rest) →
        edit_account ctx pk (.UpgradeAuthority new_key) =
          .err .unsupportedEdit { ctx with accounts := rest })
    ∧ (∀ (ctx : Valid8Context) (pk new_key : Pubkey) (R : AccountSchema)
        (rest : List AccountSchema),
        takeFirst (fun acc => acc.pubkey == pk) ctx.accounts = some (R, rest) →
        ∃ ctx2 R2, edit_program ctx pk (.UpgradeAuthority new_key) = .ok ctx2 ∧
          ctx2.accounts = rest ++ [R2] ∧
          decodeUpgradeAuthority R2.data = some (some new_key) ∧
          R2.pubkey = R.pubkey ∧ R2.network = R.network ∧ R2.owner = R.owner ∧
          R2.lamports = R.lamports ∧ R2.executable = R.executable) := by
  constructor
  · intro ctx pk new_key R rest htake
    simp only [edit_account, get_account, htake]
  · intro ctx pk new_key R rest htake
    refine ⟨reinsertAndRecord { ctx with accounts := rest }
        { R with data := .programData 0 (some new_key) } pk (.UpgradeAuthority new_key),
      { R with data := .programData 0 (some new_key) }, ?_, ?_, rfl, rfl, rfl, rfl, rfl, rfl⟩
    · simp only [edit_program, get_account, htake]
    · simp only [reinsertAndRecord, add_override_accounts]

/-- Witness for C8 on `ctxWithA` (account 7): the account path rejects the
edit, the program path re-encodes the upgrade authority to `some 555`. -/
theorem upgrade_authority_kind_checked_witness :
    takeFirst (fun acc => acc.pubkey == 7) ctxWithA.accounts = some (acctA, [])
    ∧ edit_account ctxWithA 7 (.UpgradeAuthority 555) =
        .err .unsupportedEdit { ctxWithA with accounts := [] }
    ∧ (∃ ctx2 R2, edit_program ctxWithA 7 (.UpgradeAuthority 555) = .ok ctx2 ∧
        ctx2.accounts = [] ++ [R2] ∧
        decodeUpgradeAuthority R2.data = some (some 555) ∧
        R2.pubkey = acctA.pubkey ∧ R2.network = acctA.network ∧ R2.owner = acctA.owner ∧
        R2.lamports = acctA.lamports ∧ R2.executable = acctA.executable) :=
  ⟨by decide,
   upgrade_authority_kind_checked.1 ctxWithA 7 555 acctA [] (by decide),
   upgrade_authority_kind_checked.2 ctxWithA 7 555 acctA [] (by decide)⟩

/-! ## C9 — SetData: inert on the executable path, a panic on the account path -/

/-- C9 as stated is false: on the account path `EditField::Data` is
`todo!()`, which panics — the failure is a crash, not an error result
returned to the caller.  Concretely, editing account 7 of `ctxWithA` with
`Data` panics, and the outcome is not an error result. -/
theorem set_data_account_path_panics :
    edit_account ctxWithA 7 (.Data ⟨0⟩) = .panicked
    ∧ (edit_account ctxWithA 7 (.Data ⟨0⟩)).isErrResult = false := by
  decide

/-- C9, amended: on the executable path `Data` leaves the record unchanged
(a no-op placeholder — though the record is still reinserted and the edit
journaled), and on the account path it is unimplemented and fails
explicitly via a panic (`todo!()`), which aborts instead of returning an
error result. -/
theorem set_data_inert :
    (∀ (ctx : Valid8Context) (pk : Pubkey) (v : JsonValue) (R : AccountSchema)
        (rest : List AccountSchema),
        takeFirst (fun acc => acc.pubkey == pk) ctx.accounts = some (R, rest) →
        ∃ ctx2, edit_program ctx pk (.Data v) = .ok ctx2 ∧
          ctx2.accounts = rest ++ [R])
    ∧ (∀ (ctx : Valid8Context) (pk : Pubkey) (v : JsonValue) (R : AccountSchema)
        (rest : List AccountSchema),
        takeFirst (fun acc => acc.pubkey == pk) ctx.accounts = some (R, rest) →
        edit_account ctx pk (.Data v) = .panicked ∧
        (edit_account ctx pk (.Data v)).isErrResult = false) := by
  constructor
  · intro ctx pk v R rest htake
    refine ⟨reinsertAndRecord { ctx with accounts := rest } R pk (.Data v), ?_, ?_⟩
    · simp only [edit_program, get_account, htake]
    · simp only [reinsertAndRecord, add_override_accounts]
  · intro ctx pk v R rest htake
    have h : edit_account ctx pk (.Data v) = .panicked := by
      simp only [edit_account, get_account, htake]
    exact ⟨h, by rw [h]; rfl⟩

/-- Witness for the amended C9 on `ctxWithA` (account 7). -/
theorem set_data_inert_witness :
    takeFirst (fun acc => acc.pubkey == 7) ctxWithA.accounts = some (acctA, [])
    ∧ (∃ ctx2, edit_program ctxWithA 7 (.Data ⟨3⟩) = .ok ctx2 ∧
        ctx2.accounts = [] ++ [acctA])
    ∧ (edit_account ctxWithA 7 (.Data ⟨3⟩) = .panicked ∧
        (edit_account ctxWithA 7 (.Data ⟨3⟩)).isErrResult = false) :=
  ⟨by decide,
   set_data_inert.1 ctxWithA 7 ⟨3⟩ acctA [] (by decide),
   set_data_inert.2 ctxWithA 7 ⟨3⟩ acctA [] (by decide)⟩

/-! ## C1 — apply_overrides never runs its loop body (lazy iterator bug) -/

/-- An override journal entry setting account 7's balance to 99. -/
def ovB : Override := { pubkey := 7, edit_fields := [.Lamports 99] }

/-- `ctxWithA` plus the journal entry `ovB`: a context on which `apply_all`
per the spec must edit account 7. -/
def ctxB : Valid8Context := { ctxWithA with overrides := some [ovB] }

/-- C1 fails on the code: `apply_overrides` builds its per-entry closure
with `override_list.iter().map(...)` and binds the resulting lazy iterator
to `_` without consuming it, so the closure never runs.  The function
returns `Ok(())` having located nothing and applied nothing: on `ctxB`,
whose journal orders account 7's balance set to 99, the context is returned
unchanged (balance still 10), whereas the spec-modelled consumed loop
(`apply_overrides_intended`) applies the edit. -/
theorem apply_overrides_never_applies :
    (∀ ctx : Valid8Context, apply_overrides ctx = .ok ctx)
    ∧ apply_overrides ctxB = .ok ctxB
    ∧ ctxB.accounts.map (fun a => a.lamports) = [10]
    ∧ (∃ ctx2, apply_overrides_intended ctxB = .ok ctx2 ∧
        ctx2.accounts.map (fun a => a.lamports) = [99]) := by
  refine ⟨?_, rfl, by decide, ?_⟩
  · intro ctx
    unfold apply_overrides
    cases ctx.overrides <;> rfl
  · exact ⟨_, rfl, by decide⟩

/-! ## C4 — compose terminates and is bounded by the counter -/

/-- The parent configs of a compose chain of length `len`: config `k`
(named `toString k`) refers to config `k+1`, the last one to none. -/
def chainCfg (len k : Nat) : ConfigJson :=
  { project_name := toString k, networks := [], programs := [], accounts := [],
    overrides := none, idls := [],
    compose := if k < len then some (toString (k + 1)) else none }

/-- An environment serving the compose chain `1, …, len` by name. -/
def chainEnv (len : Nat) : Env :=
  { emptyEnv with
    openConfig := fun s =>
      ((List.range len).map (fun i => (toString (i + 1), chainCfg len (i + 1)))).lookup s }

/-- A context whose compose reference starts the chain at config `"1"`. -/
def chainRoot : Valid8Context := { emptyCtx with compose := some "1" }

/-- A self-referential parent: config `"loop"` names itself. -/
def cycleCfg : ConfigJson :=
  { project_name := "loop", networks := [], programs := [], accounts := [],
    overrides := none, idls := [], compose := some "loop" }

/-- An environment serving only the self-referential config `"loop"`. -/
def cycleEnv : Env :=
  { emptyEnv with openConfig := fun s => if s = "loop" then some cycleCfg else none }

/-- A context whose compose reference enters the cycle. -/
def cycleRoot : Valid8Context := { emptyCtx with compose := some "loop" }

/-- C4: `try_compose` on a chain of 20 parents succeeds (with final count
20); on a chain of 21 parents it fails with `ComposeDepthExceeded` (count
21); and on a self-referential chain it still terminates with that same
error — the bound is the iteration counter, not cycle detection. -/
theorem try_compose_depth_bound :
    (∃ cfg, try_compose (chainEnv 20) chainRoot = .ok (cfg, 20))
    ∧ try_compose (chainEnv 21) chainRoot = .error (.composeDepthExceeded 21)
    ∧ try_compose cycleEnv cycleRoot = .error (.composeDepthExceeded 21) :=
  ⟨⟨_, rfl⟩, rfl, rfl⟩

/-! ## C5 — compose merge de-duplicates by full equality -/

/-- C5: one merge step of `try_compose` — for accounts, programs and
metadata-descriptor (IDL) ids, an element of the parent equal (by full
equality) to one already in the accumulator adds no duplicate (its
occurrence count is unchanged, and a duplicate-free accumulator list stays
duplicate-free), while a genuinely distinct parent element is appended;
parent networks are merged by set union. -/
theorem compose_merge_dedup :
    ∀ this_ctx new_ctx : ConfigJson,
      (∀ a : Pubkey × String, a ∈ this_ctx.accounts →
          occCount a (mergeConfig this_ctx new_ctx).accounts = occCount a this_ctx.accounts)
      ∧ (∀ a : Pubkey × String, a ∉ this_ctx.accounts → a ∈ new_ctx.accounts →
          a ∈ (mergeConfig this_ctx new_ctx).accounts)
      ∧ (this_ctx.accounts.Nodup → (mergeConfig this_ctx new_ctx).accounts.Nodup)
      ∧ (∀ p : Pubkey × String, p ∈ this_ctx.programs →
          occCount p (mergeConfig this_ctx new_ctx).programs = occCount p this_ctx.programs)
      ∧ (∀ p : Pubkey × String, p ∉ this_ctx.programs → p ∈ new_ctx.programs →
          p ∈ (mergeConfig this_ctx new_ctx).programs)
      ∧ (this_ctx.programs.Nodup → (mergeConfig this_ctx new_ctx).programs.Nodup)
      ∧ (∀ s : String, s ∈ this_ctx.idls →
          occCount s (mergeConfig this_ctx new_ctx).idls = occCount s this_ctx.idls)
      ∧ (∀ s : String, s ∉ this_ctx.idls → s ∈ new_ctx.idls →
          s ∈ (mergeConfig this_ctx new_ctx).idls)
      ∧ (∀ nw : Network, nw ∈ (mergeConfig this_ctx new_ctx).networks ↔
          nw ∈ this_ctx.networks ∨ nw ∈ new_ctx.networks) := by
  intro this_ctx new_ctx
  refine ⟨fun a ha => count_dedupAppend_of_mem _ _ _ ha,
          fun a ha hn => (mem_dedupAppend _ _ _).mpr (Or.inr hn),
          fun h => nodup_dedupAppend _ _ h,
          fun p hp => count_dedupAppend_of_mem _ _ _ hp,
          fun p hp hn => (mem_dedupAppend _ _ _).mpr (Or.inr hn),
          fun h => nodup_dedupAppend _ _ h,
          fun s hs => count_dedupAppend_of_mem _ _ _ hs,
          fun s hs hn => (mem_dedupAppend _ _ _).mpr (Or.inr hn),
          fun nw => mem_dedupAppend _ _ _⟩

/-- A parent config sharing account `(7, "placeholder")` with the
accumulator and bringing the distinct account `(8, "placeholder")`. -/
def parC : ConfigJson :=
  { project_name := "par", networks := [.mainnet],
    programs := [], accounts := [(7, "placeholder"), (8, "placeholder")],
    overrides := none, idls := [], compose := none }

/-- An accumulator config holding account `(7, "placeholder")` and network
`devnet`. -/
def accC : ConfigJson :=
  { project_name := "demo", networks := [.devnet],
    programs := [], accounts := [(7, "placeholder")],
    overrides := none, idls := [], compose := none }

/-- Witness for C5: merging `parC` into `accC` keeps a single copy of the
shared account, appends the distinct one, and unions the networks. -/
theorem compose_merge_dedup_witness :
    (7, "placeholder") ∈ accC.accounts
    ∧ occCount ((7 : Pubkey), "placeholder") (mergeConfig accC parC).accounts =
        occCount ((7 : Pubkey), "placeholder") accC.accounts
    ∧ ((8, "placeholder") ∉ accC.accounts ∧ (8, "placeholder") ∈ parC.accounts)
    ∧ (8, "placeholder") ∈ (mergeConfig accC parC).accounts
    ∧ (Network.mainnet ∈ (mergeConfig accC parC).networks ↔
        Network.mainnet ∈ accC.networks ∨ Network.mainnet ∈ parC.networks) :=
  ⟨by decide,
   (compose_merge_dedup accC parC).1 (7, "placeholder") (by decide),
   by decide,
   ((compose_merge_dedup accC parC).2.1) (8, "placeholder") (by decide) (by decide),
   ((compose_merge_dedup accC parC).2.2.2.2.2.2.2.2) Network.mainnet⟩

/-! ## C6 — composition never creates an overrides list -/

theorem mergeConfig_overrides_none (this_ctx new_ctx : ConfigJson)
    (h : this_ctx.overrides = none) : (mergeConfig this_ctx new_ctx).overrides = none := by
  unfold mergeConfig
  cases hn : new_ctx.overrides <;> simp [h]

theorem composeLoop_overrides_none (env : Env) :
    ∀ (fuel : Nat) (this_ctx : ConfigJson) (count : Nat) (path : Option String)
      (cfg : ConfigJson) (n : Nat),
      this_ctx.overrides = none →
      composeLoop env fuel this_ctx count path = .ok (cfg, n) →
      cfg.overrides = none := by
  intro fuel
  induction fuel with
  | zero =>
    intro this_ctx count path cfg n hov hrun
    cases path with
    | none =>
      simp only [composeLoop, Except.ok.injEq, Prod.mk.injEq] at hrun
      exact hrun.1 ▸ hov
    | some name =>
      simp only [composeLoop] at hrun
      by_cases hc : count + 1 > 20 <;> simp [hc] at hrun
  | succ fuel1 ih =>
    intro this_ctx count path cfg n hov hrun
    cases path with
    | none =>
      simp only [composeLoop, Except.ok.injEq, Prod.mk.injEq] at hrun
      exact hrun.1 ▸ hov
    | some name =>
      simp only [composeLoop] at hrun
      by_cases hc : count + 1 > 20
      · simp [hc] at hrun
      · rw [if_neg hc] at hrun
        cases hopen : env.openConfig (stripJson name) with
        | none => rw [hopen] at hrun; exact absurd hrun (by simp)
        | some new_ctx =>
          rw [hopen] at hrun
          exact ih (mergeConfig this_ctx new_ctx) (count + 1) new_ctx.compose cfg n
            (mergeConfig_overrides_none _ _ hov) hrun

/-- C6: a context without an overrides list never gains one through
composition — the merge step keeps `overrides = none` regardless of the
parent's overrides, and a successful `try_compose` starting from a context
with no overrides list produces a config with no overrides list. -/
theorem compose_never_creates_overrides :
    (∀ this_ctx new_ctx : ConfigJson, this_ctx.overrides = none →
        (mergeConfig this_ctx new_ctx).overrides = none)
    ∧ (∀ (env : Env) (ctx : Valid8Context) (cfg : ConfigJson) (n : Nat),
        ctx.overrides = none →
        try_compose env ctx = .ok (cfg, n) →
        cfg.overrides = none) := by
  refine ⟨mergeConfig_overrides_none, ?_⟩
  intro env ctx cfg n hov hrun
  exact composeLoop_overrides_none env 21 (toConfigJson ctx) 0 ctx.compose cfg n hov hrun

/-- A parent carrying an overrides list, used to show the accumulator still
does not gain one. -/
def parOv : ConfigJson :=
  { project_name := "parov", networks := [], programs := [], accounts := [],
    overrides := some [ovB], idls := [], compose := none }

/-- An environment serving `parOv` under the name `"parov"`. -/
def parOvEnv : Env :=
  { emptyEnv with openConfig := fun s => if s = "parov" then some parOv else none }

/-- A context with no overrides list composing onto `parOv`. -/
def rootNoOv : Valid8Context := { emptyCtx with compose := some "parov" }

/-- Witness for C6: composing `rootNoOv` (no overrides list) with the
override-carrying parent `parOv` yields a config whose overrides list is
still absent. -/
theorem compose_never_creates_overrides_witness :
    rootNoOv.overrides = none
    ∧ parOv.overrides = some [ovB]
    ∧ try_compose parOvEnv rootNoOv =
        .ok (mergeConfig (toConfigJson rootNoOv) parOv, 1)
    ∧ (mergeConfig (toConfigJson rootNoOv) parOv).overrides = none :=
  ⟨rfl, rfl, rfl,
   compose_never_creates_overrides.2 parOvEnv rootNoOv
     (mergeConfig (toConfigJson rootNoOv) parOv) 1 rfl rfl⟩
